import Mathlib

/-
Verification development for the magentic-one-autogen-sample repository.

The repository exposes the external Magentic-One library through a Streamlit
UI and a FastAPI task API, persists task rows in a database, and ships
Kubernetes/GitOps manifests.  The Python application files (api/main.py,
Home.py) are described by the repository's READMEs; the manifests
(SecretProviderClass, Deployment) are embedded below verbatim as data.
-/

/-- Lifecycle states of a task row, as listed in the spec glossary:
pending, running, completed, failed. -/
inductive TaskStatus
  | pending
  | running
  | completed
  | failed
deriving DecidableEq, Repr

/-- Modelled from the spec: the SQLite/Cosmos row per task described in the
API README (api/main.py is not in the snapshot): task id, prompt, status,
optional serialized result blob, optional error string, and timestamps. -/
structure TaskRow where
  task_id : Nat
  prompt : String
  status : TaskStatus
  result : Option String
  error : Option String
  created_at : Nat
  updated_at : Nat
deriving DecidableEq, Repr

/-- Modelled from the spec: the single table keyed by task id, plus the
id generator standing for the unique-task-id generation of api/main.py. -/
structure DB where
  rows : List TaskRow
  nextId : Nat
deriving DecidableEq, Repr

/-- Look up the row of a task id (first matching row of the table). -/
def findTask (id : Nat) (db : DB) : Option TaskRow :=
  db.rows.find? (fun r => r.task_id == id)

/-- Status of a task id in the table, when the row exists. -/
def statusOf (id : Nat) (db : DB) : Option TaskStatus :=
  (findTask id db).map TaskRow.status

/-- Response of POST /tasks per the API README: task id, status, created_at. -/
structure CreateResponse where
  task_id : Nat
  status : TaskStatus
  created_at : Nat
deriving DecidableEq, Repr

/-- Modelled from the spec: the POST /tasks handler of api/main.py (absent
from the snapshot).  It inserts one new row with the submitted prompt and
status "pending", and returns the new task id, "pending" and the creation
timestamp. -/
def createTask (p : String) (t : Nat) (db : DB) : CreateResponse × DB :=
  let row : TaskRow :=
    { task_id := db.nextId, prompt := p, status := .pending,
      result := none, error := none, created_at := t, updated_at := t }
  ({ task_id := db.nextId, status := .pending, created_at := t },
   { rows := db.rows ++ [row], nextId := db.nextId + 1 })

/-- Apply an update to every row of the given task id (an UPDATE ... WHERE
task_id = id over the single table). -/
def applyRow (id : Nat) (f : TaskRow → TaskRow) (db : DB) : DB :=
  { db with rows := db.rows.map (fun r => if r.task_id == id then f r else r) }

/-- Modelled from the spec: process_task first updates the task status to
"running" (API README, How It Works, step 3). -/
def setRunning (id : Nat) (t : Nat) (db : DB) : DB :=
  applyRow id (fun r => { r with status := .running, updated_at := t }) db

/-- Modelled from the spec: on success the final result is structured and
stored with status "completed". -/
def setCompleted (id : Nat) (res : String) (t : Nat) (db : DB) : DB :=
  applyRow id (fun r => { r with status := .completed, result := some res, updated_at := t }) db

/-- Modelled from the spec: on an exception from the library call the row is
updated to status "failed" with the exception surfaced as an error string. -/
def setFailed (id : Nat) (er : String) (t : Nat) (db : DB) : DB :=
  applyRow id (fun r => { r with status := .failed, error := some er, updated_at := t }) db

/-- Modelled from the spec: the process_task background job of api/main.py
(absent from the snapshot).  It sets the task to "running", runs the
Magentic-One library (its outcome is the black-box `outcome` argument:
`.ok` a result blob, `.error` the message of a raised exception), and then
stores the final result, or the error string with status "failed".  The
function is total: an exception is caught, never propagated, and no retry
or rollback is performed. -/
def process_task (id : Nat) (outcome : Except String String) (t : Nat) (db : DB) : DB :=
  let db1 := setRunning id t db
  match outcome with
  | .ok res => setCompleted id res (t + 1) db1
  | .error er => setFailed id er (t + 1) db1

/-- Response of GET /tasks/{task_id} per the API README. -/
structure StatusResponse where
  task_id : Nat
  status : TaskStatus
  prompt : String
  created_at : Nat
  updated_at : Nat
deriving DecidableEq, Repr

/-- Modelled from the spec: the GET /tasks/{task_id} handler of api/main.py
(absent from the snapshot).  A pure read of the row. -/
def getTaskStatus (id : Nat) (db : DB) : Option StatusResponse :=
  (findTask id db).map (fun r =>
    { task_id := r.task_id, status := r.status, prompt := r.prompt,
      created_at := r.created_at, updated_at := r.updated_at })

/-- Response of GET /tasks/{task_id}/result per the API README. -/
structure ResultResponse where
  task_id : Nat
  status : TaskStatus
  result : String
  created_at : Nat
  updated_at : Nat
deriving DecidableEq, Repr

/-- Modelled from the spec: the GET /tasks/{task_id}/result handler of
api/main.py (absent from the snapshot).  It returns the stored result only
if the task is completed (API README: "Retrieves the result of the
specified task if it is completed."). -/
def getTaskResult (id : Nat) (db : DB) : Except String ResultResponse :=
  match findTask id db with
  | none => .error "Task not found"
  | some r =>
    if r.status = .completed then
      match r.result with
      | some res =>
        .ok { task_id := r.task_id, status := r.status, result := res,
              created_at := r.created_at, updated_at := r.updated_at }
      | none => .error "Result missing"
    else .error "Task not completed"

/-- Modelled from the spec: the whole API process.  Besides the table it
carries the background jobs launched by POST /tasks.  A job launched for a
task sits in `queuedStart` until its first database write (status
"running"); between that write and its final write it sits in `queuedFin`.
Each queue entry carries the task id and the black-box outcome of the
library call.  `clock` supplies timestamps. -/
structure Sys where
  db : DB
  queuedStart : List (Nat × Except String String)
  queuedFin : List (Nat × Except String String)
  clock : Nat
deriving Repr

/-- The empty initial state: empty table, no background job pending. -/
def Sys.start : Sys :=
  { db := { rows := [], nextId := 0 }, queuedStart := [], queuedFin := [], clock := 0 }

/-- Events of the pipeline: an HTTP create (with the prophesied library
outcome for the launched job), the two database writes of a background job
(picked at an arbitrary queue position, so jobs interleave freely), and the
two read-only HTTP polls. -/
inductive Ev
  | create (p : String) (outcome : Except String String)
  | bgStart (i : Nat)
  | bgFinish (i : Nat)
  | poll (id : Nat)
  | pollResult (id : Nat)

/-- Modelled from the spec: one step of the pipeline (HTTP request →
background invocation of the external library → DB write → HTTP poll).
POST /tasks inserts the pending row and launches the background job;
a background job first writes "running", then writes its final status;
GET /tasks/{task_id} and GET /tasks/{task_id}/result only read. -/
def step (s : Sys) (e : Ev) : Sys :=
  match e with
  | .create p outcome =>
    let created := createTask p s.clock s.db
    { s with db := created.2,
             queuedStart := s.queuedStart ++ [(created.1.task_id, outcome)],
             clock := s.clock + 1 }
  | .bgStart i =>
    match s.queuedStart[i]? with
    | none => s
    | some job =>
      { s with db := setRunning job.1 s.clock s.db,
               queuedStart := s.queuedStart.eraseIdx i,
               queuedFin := s.queuedFin ++ [job],
               clock := s.clock + 1 }
  | .bgFinish i =>
    match s.queuedFin[i]? with
    | none => s
    | some job =>
      { s with db := (match job.2 with
                      | .ok res => setCompleted job.1 res s.clock s.db
                      | .error er => setFailed job.1 er s.clock s.db),
               queuedFin := s.queuedFin.eraseIdx i,
               clock := s.clock + 1 }
  | .poll _ => s
  | .pollResult _ => s

/-- States of the API process reachable from the empty initial state. -/
inductive Reachable : Sys → Prop
  | start : Reachable Sys.start
  | step (s : Sys) (e : Ev) : Reachable s → Reachable (step s e)

/-- The status changes the lifecycle admits for one task id across one
step: no change, row creation in "pending", pending → running, and
running → completed/failed. -/
def lifecycleOk : Option TaskStatus → Option TaskStatus → Bool
  | a, b =>
    a == b ||
    (a == none && b == some .pending) ||
    (a == some .pending && b == some .running) ||
    (a == some .running && b == some .completed) ||
    (a == some .running && b == some .failed)

/-- The inductive invariant of the API process: row ids are below the id
generator and pairwise distinct; a job in `queuedStart` points at a
"pending" row; a job in `queuedFin` points at a "running" row; and no two
queued jobs share a task id. -/
def SysInv (s : Sys) : Prop :=
  (∀ r ∈ s.db.rows, r.task_id < s.db.nextId) ∧
  (s.db.rows.map TaskRow.task_id).Nodup ∧
  (∀ j ∈ s.queuedStart, statusOf j.1 s.db = some .pending) ∧
  (∀ j ∈ s.queuedFin, statusOf j.1 s.db = some .running) ∧
  (s.queuedStart.map Prod.fst ++ s.queuedFin.map Prod.fst).Nodup

/-- A streamed agent message as shown in the API README result JSON:
source, content, type. -/
structure AgentMessage where
  source : String
  content : String
  msgType : String
deriving DecidableEq, Repr

/-- What one run of the system records: the task text handed to the
library's run_stream, and the messages shown to the client. -/
structure RunTrace where
  taskArg : String
  displayed : List AgentMessage
deriving DecidableEq, Repr

/-- Relay a stream: each incoming message is appended, unaltered, to the
output shown to the client (the Console / Streamlit display loop). -/
def relayMessages (ms : List AgentMessage) : List AgentMessage :=
  ms.foldl (fun acc m => acc ++ [m]) []

/-- Modelled from the spec: the run path of Home.py and api/main.py (absent
from the snapshot): "this system only calls run_stream(task) and relays
what comes back".  `lib` is the black-box library stream for a given task
text; the system performs no planning, coordination or execution of its
own — it hands the submitted text to `lib` and relays the stream. -/
def runMagenticTask (lib : String → List AgentMessage) (p : String) : RunTrace :=
  { taskArg := p, displayed := relayMessages (lib p) }

/-- The fixed task text of the notebook's first sample. -/
def notebookTask : String :=
  "Write an python code to calculate the nth fibonacci number, and also display the host name of the compute the codes being executed. Then, use the code to calculate the 10th fibonacci number and reply user."

/-- The write_code sample of notebook/magentic-one.ipynb: it builds the
MagenticOne team and awaits Console(m1.run_stream(task=task)) on the fixed
task text. -/
def write_code (lib : String → List AgentMessage) : RunTrace :=
  runMagenticTask lib notebookTask

/-- An image produced during a run: a name and its raw bytes. -/
structure RunImage where
  name : String
  bytes : List Nat
deriving DecidableEq, Repr

/-- One write to Azure Blob Storage: the blob URL and the bytes stored. -/
structure BlobWrite where
  url : String
  content : List Nat
deriving DecidableEq, Repr

/-- The document stored in Azure Cosmos DB for a run: run id, task text,
text results, and the URLs of the stored images — no image bytes field. -/
structure CosmosDoc where
  id : String
  task : String
  textResults : List String
  imageUrls : List String
deriving DecidableEq, Repr

/-- The URL under which a run image is stored in the blob container. -/
def blobUrl (accountUrl container : String) (img : RunImage) : String :=
  accountUrl ++ container ++ "/" ++ img.name

/-- Modelled from the spec: the STORE_RUN_RESULT feature of Home.py (absent
from the snapshot).  When enabled it stores every image of the run in
Azure Blob Storage and stores in Azure Cosmos DB the run metadata, the
text results, and the image URLs referencing those blobs; when disabled it
stores nothing. -/
def store_run_result (enabled : Bool) (accountUrl container : String)
    (runId task : String) (texts : List String) (imgs : List RunImage) :
    List BlobWrite × Option CosmosDoc :=
  if enabled then
    (imgs.map (fun i => { url := blobUrl accountUrl container i, content := i.bytes }),
     some { id := runId, task := task, textResults := texts,
            imageUrls := imgs.map (blobUrl accountUrl container) })
  else ([], none)

/-- One entry of the SecretProviderClass secretObjects data: a Key Vault
object name and the Kubernetes secret key it is mapped to. -/
structure SecretMapping where
  objectName : String
  key : String
deriving DecidableEq, Repr

/-- The four Key Vault objects declared in the parameters of the
SecretProviderClass akvprovider-arc (csi-secret manifest). -/
def akvObjects : List String :=
  ["LITE-LLM-KEY", "POSTGRESQL-PASSWORD", "AZURE-OPEN-AI-KEY", "OPEN-AI-API-KEY"]

/-- The name of the Kubernetes secret the SecretProviderClass materialises. -/
def akvSecretName : String := "apps-akv-secret"

/-- The data mapping of the secretObjects entry of akvprovider-arc, in
manifest order. -/
def appsAkvSecretData : List SecretMapping :=
  [{ objectName := "LITE-LLM-KEY", key := "LITE-LLM-KEY" },
   { objectName := "POSTGRESQL-PASSWORD", key := "POSTGRESQL-PASSWORD" },
   { objectName := "OPEN-AI-API-KEY", key := "OPEN-AI-API-KEY" },
   { objectName := "AZURE-OPEN-AI-KEY", key := "AZURE-OPEN-AI-KEY" }]

/-- A container env var drawn from a Kubernetes secret via secretKeyRef. -/
structure SecretKeyRef where
  envName : String
  secretName : String
  key : String
deriving DecidableEq, Repr

/-- The secretKeyRef env vars of the magentic-container in the
magentic-deployment manifest, in manifest order. -/
def deploymentSecretEnv : List SecretKeyRef :=
  [{ envName := "POSTGRESQL_PASSWORD", secretName := "apps-akv-secret", key := "POSTGRESQL-PASSWORD" },
   { envName := "LITE_LLM_KEY", secretName := "apps-akv-secret", key := "LITE-LLM-KEY" },
   { envName := "AZURE_OPEN_AI_KEY", secretName := "apps-akv-secret", key := "AZURE-OPEN-AI-KEY" },
   { envName := "OPEN_AI_API_KEY", secretName := "apps-akv-secret", key := "OPEN-AI-API-KEY" }]

theorem findTask_applyRow (j id : Nat) (f : TaskRow → TaskRow) (db : DB)
    (hf : ∀ r, (f r).task_id = r.task_id) :
    findTask j (applyRow id f db)
      = (findTask j db).map (fun r => if r.task_id == id then f r else r) := by
  unfold findTask applyRow
  rw [List.find?_map]
  have hp : ((fun r => r.task_id == j) ∘ fun r => if r.task_id == id then f r else r)
      = fun r => r.task_id == j := by
    funext r
    by_cases h : r.task_id = id
    · simp [Function.comp, h, hf]
    · simp [Function.comp, h]
  rw [hp]

theorem findTask_mem (j : Nat) (db : DB) (r : TaskRow) (h : findTask j db = some r) :
    r ∈ db.rows ∧ r.task_id = j := by
  unfold findTask at h
  refine ⟨List.mem_of_find?_eq_some h, ?_⟩
  have := List.find?_some h
  simpa using this

theorem findTask_applyRow_ne (j id : Nat) (f : TaskRow → TaskRow) (db : DB)
    (hf : ∀ r, (f r).task_id = r.task_id) (hne : j ≠ id) :
    findTask j (applyRow id f db) = findTask j db := by
  rw [findTask_applyRow j id f db hf]
  cases hfind : findTask j db with
  | none => rfl
  | some r =>
    have hr := (findTask_mem j db r hfind).2
    simp [hr, hne]

theorem findTask_applyRow_self (id : Nat) (f : TaskRow → TaskRow) (db : DB)
    (hf : ∀ r, (f r).task_id = r.task_id) :
    findTask id (applyRow id f db) = (findTask id db).map f := by
  rw [findTask_applyRow id id f db hf]
  cases hfind : findTask id db with
  | none => rfl
  | some r =>
    have hr := (findTask_mem id db r hfind).2
    simp [hr]

theorem rowIds_applyRow (id : Nat) (f : TaskRow → TaskRow) (db : DB)
    (hf : ∀ r, (f r).task_id = r.task_id) :
    (applyRow id f db).rows.map TaskRow.task_id = db.rows.map TaskRow.task_id := by
  unfold applyRow
  rw [List.map_map]
  congr 1
  funext r
  by_cases h : r.task_id = id
  · simp [Function.comp, h, hf]
  · simp [Function.comp, h]

/-- The row POST /tasks inserts. -/
def newRow (p : String) (t : Nat) (db : DB) : TaskRow :=
  { task_id := db.nextId, prompt := p, status := .pending,
    result := none, error := none, created_at := t, updated_at := t }

theorem createTask_db (p : String) (t : Nat) (db : DB) :
    (createTask p t db).2 = { rows := db.rows ++ [newRow p t db], nextId := db.nextId + 1 } := rfl

theorem findTask_createTask (p : String) (t : Nat) (db : DB) (j : Nat)
    (hlt : ∀ r ∈ db.rows, r.task_id < db.nextId) :
    findTask j (createTask p t db).2
      = if j = db.nextId then some (newRow p t db) else findTask j db := by
  rw [createTask_db]
  unfold findTask
  rw [List.find?_append]
  by_cases hj : j = db.nextId
  · have hnone : db.rows.find? (fun r => r.task_id == j) = none := by
      rw [List.find?_eq_none]
      intro r hr
      have := hlt r hr
      simp only [beq_iff_eq, hj]
      omega
    have hone : List.find? (fun r => r.task_id == j) [newRow p t db] = some (newRow p t db) := by
      simp [List.find?, newRow, hj]
    rw [hnone, hone]
    simp [hj]
  · have hnone : List.find? (fun r => r.task_id == j) [newRow p t db] = none := by
      have hb : ((newRow p t db).task_id == j) = false := by
        simp [newRow]
        omega
      simp [List.find?, hb]
    simp [hnone, hj]

theorem statusOf_setRunning_self (id t : Nat) (db : DB) :
    statusOf id (setRunning id t db) = (statusOf id db).map (fun _ => .running) := by
  unfold statusOf setRunning
  rw [findTask_applyRow_self]
  · cases findTask id db <;> rfl
  · intro r
    rfl

theorem statusOf_setRunning_ne (j id t : Nat) (db : DB) (hne : j ≠ id) :
    statusOf j (setRunning id t db) = statusOf j db := by
  unfold statusOf setRunning
  rw [findTask_applyRow_ne]
  · intro r
    rfl
  · exact hne

theorem statusOf_setCompleted_ne (j id : Nat) (res : String) (t : Nat) (db : DB) (hne : j ≠ id) :
    statusOf j (setCompleted id res t db) = statusOf j db := by
  unfold statusOf setCompleted
  rw [findTask_applyRow_ne]
  · intro r
    rfl
  · exact hne

theorem statusOf_setFailed_ne (j id : Nat) (er : String) (t : Nat) (db : DB) (hne : j ≠ id) :
    statusOf j (setFailed id er t db) = statusOf j db := by
  unfold statusOf setFailed
  rw [findTask_applyRow_ne]
  · intro r
    rfl
  · exact hne

theorem statusOf_setCompleted_self (id : Nat) (res : String) (t : Nat) (db : DB) :
    statusOf id (setCompleted id res t db) = (statusOf id db).map (fun _ => .completed) := by
  unfold statusOf setCompleted
  rw [findTask_applyRow_self]
  · cases findTask id db <;> rfl
  · intro r
    rfl

theorem statusOf_setFailed_self (id : Nat) (er : String) (t : Nat) (db : DB) :
    statusOf id (setFailed id er t db) = (statusOf id db).map (fun _ => .failed) := by
  unfold statusOf setFailed
  rw [findTask_applyRow_self]
  · cases findTask id db <;> rfl
  · intro r
    rfl

theorem statusOf_createTask (p : String) (t : Nat) (db : DB) (j : Nat)
    (hlt : ∀ r ∈ db.rows, r.task_id < db.nextId) :
    statusOf j (createTask p t db).2
      = if j = db.nextId then some .pending else statusOf j db := by
  unfold statusOf
  rw [findTask_createTask p t db j hlt]
  by_cases hj : j = db.nextId <;> simp [hj, newRow]

theorem statusOf_lt_nextId (j : Nat) (db : DB) (st : TaskStatus)
    (h : statusOf j db = some st) (h1 : ∀ r ∈ db.rows, r.task_id < db.nextId) :
    j < db.nextId := by
  unfold statusOf at h
  cases hf : findTask j db with
  | none => rw [hf] at h; exact absurd h (by simp)
  | some r =>
    obtain ⟨hm, hid⟩ := findTask_mem j db r hf
    have := h1 r hm
    omega

theorem applyRow_preserves_ids (id : Nat) (f : TaskRow → TaskRow) (db : DB)
    (hf : ∀ r, (f r).task_id = r.task_id)
    (h1 : ∀ r ∈ db.rows, r.task_id < db.nextId)
    (h2 : (db.rows.map TaskRow.task_id).Nodup) :
    (∀ r ∈ (applyRow id f db).rows, r.task_id < (applyRow id f db).nextId) ∧
    ((applyRow id f db).rows.map TaskRow.task_id).Nodup := by
  have hids := rowIds_applyRow id f db hf
  constructor
  · intro r hr
    have hmem : r.task_id ∈ (applyRow id f db).rows.map TaskRow.task_id :=
      List.mem_map_of_mem _ hr
    rw [hids] at hmem
    obtain ⟨r0, hr0, he⟩ := List.mem_map.mp hmem
    rw [← he]
    exact h1 r0 hr0
  · rw [hids]
    exact h2

theorem perm_eraseIdx_cons {α : Type} (l : List α) (i : Nat) (h : i < l.length) :
    List.Perm l (l[i] :: l.eraseIdx i) := by
  conv_lhs => rw [← List.take_append_drop i l, ← List.getElem_cons_drop l i h]
  rw [List.eraseIdx_eq_take_drop_succ]
  exact List.perm_middle

theorem eraseIdx_fst_ne (q : List (Nat × Except String String)) (i : Nat)
    (job : Nat × Except String String)
    (hnd : (q.map Prod.fst).Nodup) (hq : q[i]? = some job) :
    ∀ x ∈ q.eraseIdx i, x.1 ≠ job.1 := by
  obtain ⟨hlen, hget⟩ := List.getElem?_eq_some.mp hq
  have hperm : List.Perm q (job :: q.eraseIdx i) := by
    rw [← hget]
    exact perm_eraseIdx_cons q i hlen
  have hperm2 : List.Perm (q.map Prod.fst) (job.1 :: (q.eraseIdx i).map Prod.fst) :=
    hperm.map Prod.fst
  have hnd2 : (job.1 :: (q.eraseIdx i).map Prod.fst).Nodup :=
    (hperm2.nodup_iff).mp hnd
  have hnotin : job.1 ∉ (q.eraseIdx i).map Prod.fst := (List.nodup_cons.mp hnd2).1
  intro x hx hEq
  exact hnotin (hEq ▸ List.mem_map_of_mem Prod.fst hx)

theorem getElem?_queue_mem (q : List (Nat × Except String String)) (i : Nat)
    (job : Nat × Except String String) (h : q[i]? = some job) : job ∈ q := by
  obtain ⟨hlen, hget⟩ := List.getElem?_eq_some.mp h
  rw [← hget]
  exact List.getElem_mem hlen

theorem sysInv_create (s : Sys) (p : String) (outcome : Except String String)
    (h : SysInv s) : SysInv (step s (.create p outcome)) := by
  obtain ⟨h1, h2, h3, h4, h5⟩ := h
  have hdb : (step s (.create p outcome)).db
      = { rows := s.db.rows ++ [newRow p s.clock s.db], nextId := s.db.nextId + 1 } := rfl
  have hqs : (step s (.create p outcome)).queuedStart
      = s.queuedStart ++ [(s.db.nextId, outcome)] := rfl
  have hqf : (step s (.create p outcome)).queuedFin = s.queuedFin := rfl
  refine ⟨?_, ?_, ?_, ?_, ?_⟩
  · rw [hdb]
    intro r hr
    rcases List.mem_append.mp hr with hold | hnew
    · have := h1 r hold
      simp only []
      omega
    · have : r = newRow p s.clock s.db := by simpa using hnew
      rw [this]
      simp [newRow]
  · rw [hdb]
    simp only [List.map_append]
    rw [List.nodup_append]
    refine ⟨h2, by simp, ?_⟩
    intro a ha hb
    simp [newRow] at hb
    obtain ⟨r, hr, he⟩ := List.mem_map.mp ha
    have := h1 r hr
    omega
  · rw [hqs, hdb]
    intro j hj
    have hstat : statusOf j.1 (createTask p s.clock s.db).2
        = if j.1 = s.db.nextId then some .pending else statusOf j.1 s.db :=
      statusOf_createTask p s.clock s.db j.1 h1
    rcases List.mem_append.mp hj with hold | hnew
    · by_cases hje : j.1 = s.db.nextId
      · rw [show ({ rows := s.db.rows ++ [newRow p s.clock s.db], nextId := s.db.nextId + 1 } : DB)
            = (createTask p s.clock s.db).2 from rfl, hstat]
        simp [hje]
      · rw [show ({ rows := s.db.rows ++ [newRow p s.clock s.db], nextId := s.db.nextId + 1 } : DB)
            = (createTask p s.clock s.db).2 from rfl, hstat]
        simp [hje]
        exact (by simpa using h3 j hold)
    · have : j = (s.db.nextId, outcome) := by simpa using hnew
      rw [show ({ rows := s.db.rows ++ [newRow p s.clock s.db], nextId := s.db.nextId + 1 } : DB)
          = (createTask p s.clock s.db).2 from rfl, hstat]
      simp [this]
  · rw [hqf, hdb]
    intro j hj
    have hrun := h4 j hj
    have hlt := statusOf_lt_nextId j.1 s.db .running hrun h1
    have hne : j.1 ≠ s.db.nextId := by omega
    rw [show ({ rows := s.db.rows ++ [newRow p s.clock s.db], nextId := s.db.nextId + 1 } : DB)
        = (createTask p s.clock s.db).2 from rfl,
       statusOf_createTask p s.clock s.db j.1 h1]
    simp [hne]
    exact (by simpa using hrun)
  · rw [hqs, hqf]
    simp only [List.map_append, List.map_cons, List.map_nil]
    have hshape : s.queuedStart.map Prod.fst ++ [s.db.nextId] ++ s.queuedFin.map Prod.fst
        = s.queuedStart.map Prod.fst ++ s.db.nextId :: s.queuedFin.map Prod.fst := by
      simp
    rw [List.append_assoc]
    show (s.queuedStart.map Prod.fst ++ (s.db.nextId :: s.queuedFin.map Prod.fst)).Nodup
    rw [List.nodup_middle]
    rw [List.nodup_cons]
    constructor
    · intro hmem
      rcases List.mem_append.mp hmem with hin | hin
      · obtain ⟨j, hj, he⟩ := List.mem_map.mp hin
        have := statusOf_lt_nextId j.1 s.db .pending (h3 j hj) h1
        omega
      · obtain ⟨j, hj, he⟩ := List.mem_map.mp hin
        have := statusOf_lt_nextId j.1 s.db .running (h4 j hj) h1
        omega
    · exact h5

theorem sysInv_bgStart (s : Sys) (i : Nat) (h : SysInv s) : SysInv (step s (.bgStart i)) := by
  obtain ⟨h1, h2, h3, h4, h5⟩ := h
  cases hq : s.queuedStart[i]? with
  | none =>
    have hid : step s (.bgStart i) = s := by
      simp [step, hq]
    rw [hid]
    exact ⟨h1, h2, h3, h4, h5⟩
  | some job =>
    have hdb : (step s (.bgStart i)).db = setRunning job.1 s.clock s.db := by
      simp [step, hq]
    have hqs : (step s (.bgStart i)).queuedStart = s.queuedStart.eraseIdx i := by
      simp [step, hq]
    have hqf : (step s (.bgStart i)).queuedFin = s.queuedFin ++ [job] := by
      simp [step, hq]
    have hjob_mem : job ∈ s.queuedStart := getElem?_queue_mem s.queuedStart i job hq
    have hnd_app := List.nodup_append.mp h5
    have hnd_qs : (s.queuedStart.map Prod.fst).Nodup := hnd_app.1
    have hdisj := hnd_app.2.2
    have hpend : statusOf job.1 s.db = some .pending := h3 job hjob_mem
    have hids := applyRow_preserves_ids job.1
      (fun r => { r with status := TaskStatus.running, updated_at := s.clock }) s.db
      (fun r => rfl) h1 h2
    refine ⟨?_, ?_, ?_, ?_, ?_⟩
    · rw [hdb]
      exact hids.1
    · rw [hdb]
      exact hids.2
    · rw [hqs, hdb]
      intro x hx
      have hxq : x ∈ s.queuedStart := (List.eraseIdx_sublist s.queuedStart i).mem hx
      have hne : x.1 ≠ job.1 := eraseIdx_fst_ne s.queuedStart i job hnd_qs hq x hx
      rw [statusOf_setRunning_ne x.1 job.1 s.clock s.db hne]
      exact h3 x hxq
    · rw [hqf, hdb]
      intro x hx
      rcases List.mem_append.mp hx with hold | hnew
      · have hne : x.1 ≠ job.1 := by
          intro hEq
          exact hdisj (List.mem_map_of_mem Prod.fst hjob_mem)
            (hEq ▸ List.mem_map_of_mem Prod.fst hold)
        rw [statusOf_setRunning_ne x.1 job.1 s.clock s.db hne]
        exact h4 x hold
      · have hx2 : x = job := by simpa using hnew
        rw [hx2, statusOf_setRunning_self job.1 s.clock s.db, hpend]
        rfl
    · rw [hqs, hqf]
      simp only [List.map_append, List.map_cons, List.map_nil]
      have hperm_q : List.Perm (s.queuedStart.map Prod.fst)
          (job.1 :: (s.queuedStart.eraseIdx i).map Prod.fst) := by
        obtain ⟨hlen, hget⟩ := List.getElem?_eq_some.mp hq
        have hp := perm_eraseIdx_cons s.queuedStart i hlen
        rw [hget] at hp
        exact hp.map Prod.fst
      have e1 : List.Perm
          ((s.queuedStart.eraseIdx i).map Prod.fst ++ (s.queuedFin.map Prod.fst ++ [job.1]))
          (job.1 :: ((s.queuedStart.eraseIdx i).map Prod.fst ++ s.queuedFin.map Prod.fst)) := by
        rw [← List.append_assoc]
        exact List.perm_append_comm
      have e2 : List.Perm
          (s.queuedStart.map Prod.fst ++ s.queuedFin.map Prod.fst)
          (job.1 :: ((s.queuedStart.eraseIdx i).map Prod.fst ++ s.queuedFin.map Prod.fst)) :=
        hperm_q.append_right _
      exact (e1.trans e2.symm).nodup_iff.mpr h5

theorem sysInv_bgFinish (s : Sys) (i : Nat) (h : SysInv s) : SysInv (step s (.bgFinish i)) := by
  obtain ⟨h1, h2, h3, h4, h5⟩ := h
  cases hq : s.queuedFin[i]? with
  | none =>
    have hid : step s (.bgFinish i) = s := by
      simp [step, hq]
    rw [hid]
    exact ⟨h1, h2, h3, h4, h5⟩
  | some job =>
    have hqs : (step s (.bgFinish i)).queuedStart = s.queuedStart := by
      simp [step, hq]
    have hqf : (step s (.bgFinish i)).queuedFin = s.queuedFin.eraseIdx i := by
      simp [step, hq]
    have hjob_mem : job ∈ s.queuedFin := getElem?_queue_mem s.queuedFin i job hq
    have hnd_app := List.nodup_append.mp h5
    have hnd_qf : (s.queuedFin.map Prod.fst).Nodup := hnd_app.2.1
    have hdisj := hnd_app.2.2
    have hdb : (step s (.bgFinish i)).db
        = (match job.2 with
           | .ok res => setCompleted job.1 res s.clock s.db
           | .error er => setFailed job.1 er s.clock s.db) := by
      simp [step, hq]
    have hdb_ne : ∀ j, j ≠ job.1 → statusOf j (step s (.bgFinish i)).db = statusOf j s.db := by
      intro j hne
      rw [hdb]
      cases job.2 with
      | ok res => exact statusOf_setCompleted_ne j job.1 res s.clock s.db hne
      | error er => exact statusOf_setFailed_ne j job.1 er s.clock s.db hne
    have hdb_ids :
        (∀ r ∈ (step s (.bgFinish i)).db.rows, r.task_id < (step s (.bgFinish i)).db.nextId) ∧
        ((step s (.bgFinish i)).db.rows.map TaskRow.task_id).Nodup := by
      rw [hdb]
      cases job.2 with
      | ok res =>
        exact applyRow_preserves_ids job.1
          (fun r => { r with status := TaskStatus.completed, result := some res, updated_at := s.clock })
          s.db (fun r => rfl) h1 h2
      | error er =>
        exact applyRow_preserves_ids job.1
          (fun r => { r with status := TaskStatus.failed, error := some er, updated_at := s.clock })
          s.db (fun r => rfl) h1 h2
    refine ⟨hdb_ids.1, hdb_ids.2, ?_, ?_, ?_⟩
    · rw [hqs]
      intro x hx
      have hne : x.1 ≠ job.1 := by
        intro hEq
        exact hdisj (List.mem_map_of_mem Prod.fst hx)
          (hEq ▸ List.mem_map_of_mem Prod.fst hjob_mem)
      rw [hdb_ne x.1 hne]
      exact h3 x hx
    · rw [hqf]
      intro x hx
      have hxq : x ∈ s.queuedFin := (List.eraseIdx_sublist s.queuedFin i).mem hx
      have hne : x.1 ≠ job.1 := eraseIdx_fst_ne s.queuedFin i job hnd_qf hq x hx
      rw [hdb_ne x.1 hne]
      exact h4 x hxq
    · rw [hqs, hqf]
      have hsub : ((s.queuedFin.eraseIdx i).map Prod.fst).Sublist (s.queuedFin.map Prod.fst) :=
        (List.eraseIdx_sublist s.queuedFin i).map Prod.fst
      have : (s.queuedStart.map Prod.fst ++ (s.queuedFin.eraseIdx i).map Prod.fst).Sublist
          (s.queuedStart.map Prod.fst ++ s.queuedFin.map Prod.fst) :=
        hsub.append_left _
      exact this.nodup h5

theorem sysInv_step (s : Sys) (e : Ev) (h : SysInv s) : SysInv (step s e) := by
  cases e with
  | create p outcome => exact sysInv_create s p outcome h
  | bgStart i => exact sysInv_bgStart s i h
  | bgFinish i => exact sysInv_bgFinish s i h
  | poll id => exact h
  | pollResult id => exact h

theorem sysInv_start : SysInv Sys.start := by
  refine ⟨?_, ?_, ?_, ?_, ?_⟩ <;> simp [Sys.start]

theorem reachable_sysInv (s : Sys) (h : Reachable s) : SysInv s := by
  induction h with
  | start => exact sysInv_start
  | step s e _ ih => exact sysInv_step s e ih

theorem lifecycleOk_refl (a : Option TaskStatus) : lifecycleOk a a = true := by
  simp [lifecycleOk]

/-- C1: every task follows the lifecycle pending → running → completed/failed.
In every reachable state of the API process, one step changes the status of
any task id only along the allowed transitions: creation into "pending",
"pending" to "running", "running" to "completed" or "failed" — never out of
a terminal state and never skipping from "pending" to a terminal state. -/
theorem task_lifecycle (s : Sys) (e : Ev) (id : Nat) (h : Reachable s) :
    lifecycleOk (statusOf id s.db) (statusOf id (step s e).db) = true := by
  obtain ⟨h1, h2, h3, h4, h5⟩ := reachable_sysInv s h
  cases e with
  | create p outcome =>
    have hdb : (step s (.create p outcome)).db = (createTask p s.clock s.db).2 := rfl
    rw [hdb, statusOf_createTask p s.clock s.db id h1]
    by_cases hid : id = s.db.nextId
    · have hnone : statusOf id s.db = none := by
        unfold statusOf
        cases hf : findTask id s.db with
        | none => rfl
        | some r =>
          obtain ⟨hm, hid2⟩ := findTask_mem id s.db r hf
          have := h1 r hm
          omega
      rw [hnone]
      simp [hid, lifecycleOk]
    · simp [hid, lifecycleOk_refl]
  | bgStart i =>
    cases hq : s.queuedStart[i]? with
    | none =>
      have hid2 : step s (.bgStart i) = s := by
        simp [step, hq]
      rw [hid2]
      exact lifecycleOk_refl _
    | some job =>
      have hdb : (step s (.bgStart i)).db = setRunning job.1 s.clock s.db := by
        simp [step, hq]
      rw [hdb]
      by_cases hij : id = job.1
      · rw [hij, statusOf_setRunning_self job.1 s.clock s.db,
            h3 job (getElem?_queue_mem s.queuedStart i job hq)]
        rfl
      · rw [statusOf_setRunning_ne id job.1 s.clock s.db hij]
        exact lifecycleOk_refl _
  | bgFinish i =>
    cases hq : s.queuedFin[i]? with
    | none =>
      have hid2 : step s (.bgFinish i) = s := by
        simp [step, hq]
      rw [hid2]
      exact lifecycleOk_refl _
    | some job =>
      have hrun : statusOf job.1 s.db = some .running :=
        h4 job (getElem?_queue_mem s.queuedFin i job hq)
      have hdb : (step s (.bgFinish i)).db
          = (match job.2 with
             | .ok res => setCompleted job.1 res s.clock s.db
             | .error er => setFailed job.1 er s.clock s.db) := by
        simp [step, hq]
      rw [hdb]
      cases job.2 with
      | ok res =>
        by_cases hij : id = job.1
        · rw [hij, statusOf_setCompleted_self job.1 res s.clock s.db, hrun]
          rfl
        · rw [statusOf_setCompleted_ne id job.1 res s.clock s.db hij]
          exact lifecycleOk_refl _
      | error er =>
        by_cases hij : id = job.1
        · rw [hij, statusOf_setFailed_self job.1 er s.clock s.db, hrun]
          rfl
        · rw [statusOf_setFailed_ne id job.1 er s.clock s.db hij]
          exact lifecycleOk_refl _
  | poll pid => exact lifecycleOk_refl _
  | pollResult pid => exact lifecycleOk_refl _

/-- Witness for C1: one concrete instance, the create step from the empty
state, checked on task id 0. -/
theorem task_lifecycle_witness :
    lifecycleOk (statusOf 0 Sys.start.db)
      (statusOf 0 (step Sys.start (Ev.create "write a story" (Except.ok "done"))).db) = true :=
  task_lifecycle Sys.start (Ev.create "write a story" (Except.ok "done")) 0 Reachable.start

/-- C2: POST /tasks with a prompt inserts exactly one new row whose status
is "pending" and whose prompt is the submitted prompt, starts the
background processing of that task, and returns the new task id, the
status "pending", and the creation timestamp. -/
theorem create_task_contract (p : String) (outcome : Except String String) (s : Sys) :
    (createTask p s.clock s.db).1.status = TaskStatus.pending ∧
    (createTask p s.clock s.db).1.created_at = s.clock ∧
    (step s (.create p outcome)).db.rows
      = s.db.rows ++ [{ task_id := (createTask p s.clock s.db).1.task_id, prompt := p,
                        status := .pending, result := none, error := none,
                        created_at := s.clock, updated_at := s.clock }] ∧
    ((createTask p s.clock s.db).1.task_id, outcome) ∈ (step s (.create p outcome)).queuedStart := by
  refine ⟨rfl, rfl, rfl, ?_⟩
  show _ ∈ s.queuedStart ++ [((createTask p s.clock s.db).1.task_id, outcome)]
  simp

/-- C3: when the background library call raises an exception, process_task
catches it (it is total and returns a database, propagating nothing) and
updates exactly the task's row to the terminal status "failed" with the
exception surfaced as the error string; every other row is untouched and
no retry or rollback happens (the id generator and the row multiset shape
are preserved). -/
theorem exception_marks_failed (id : Nat) (er : String) (t : Nat) (db : DB) :
    (process_task id (.error er) t db).nextId = db.nextId ∧
    (process_task id (.error er) t db).rows
      = db.rows.map (fun r => if r.task_id == id
          then { r with status := TaskStatus.failed, error := some er, updated_at := t + 1 }
          else r) := by
  constructor
  · rfl
  · show (applyRow id _ (applyRow id _ db)).rows = _
    unfold applyRow
    simp only [List.map_map]
    congr 1
    funext r
    by_cases hr : r.task_id = id
    · simp [Function.comp, hr]
    · simp [Function.comp, hr]

theorem find?_self_of_nodup (l : List TaskRow) (r : TaskRow) :
    (l.map TaskRow.task_id).Nodup → r ∈ l →
    l.find? (fun x => x.task_id == r.task_id) = some r := by
  induction l with
  | nil =>
    intro _ hr
    cases hr
  | cons a l ih =>
    intro hnd hr
    rw [List.map_cons, List.nodup_cons] at hnd
    by_cases hta : a.task_id = r.task_id
    · have ha : r = a := by
        rcases List.mem_cons.mp hr with h1 | h1
        · exact h1
        · exact absurd (hta.symm ▸ List.mem_map_of_mem TaskRow.task_id h1) hnd.1
      rw [ha]
      simp [List.find?]
    · have hrl : r ∈ l := by
        rcases List.mem_cons.mp hr with h1 | h1
        · exact absurd (by rw [h1]) hta
        · exact h1
      have hb : (a.task_id == r.task_id) = false := by
        simp [hta]
      simp only [List.find?, hb]
      exact ih hnd.2 hrl

/-- C4: GET /tasks/{task_id}/result returns the stored result only when the
task's status is "completed": for an existing but not completed task it
never answers with a result, and for a completed task the body carries the
status "completed", the stored result, and the task's timestamps. -/
theorem result_gated_on_completed (id : Nat) (db : DB) (r : TaskRow)
    (hfind : findTask id db = some r) :
    (r.status ≠ TaskStatus.completed → ∀ resp, getTaskResult id db ≠ .ok resp) ∧
    (∀ res, r.status = TaskStatus.completed → r.result = some res →
      getTaskResult id db
        = .ok { task_id := r.task_id, status := TaskStatus.completed, result := res,
                created_at := r.created_at, updated_at := r.updated_at }) := by
  constructor
  · intro hne resp
    unfold getTaskResult
    rw [hfind]
    simp [hne]
  · intro res hst hres
    unfold getTaskResult
    rw [hfind]
    simp [hst, hres]

/-- Witness for C4: a one-row table whose task 0 is completed; the result
endpoint answers with exactly the stored result and timestamps. -/
theorem result_gated_on_completed_witness :
    getTaskResult 0
        { rows := [{ task_id := 0, prompt := "write a story", status := .completed,
                     result := some "story text", error := none, created_at := 1, updated_at := 2 }],
          nextId := 1 }
      = .ok { task_id := 0, status := TaskStatus.completed, result := "story text",
              created_at := 1, updated_at := 2 } :=
  (result_gated_on_completed 0
    { rows := [{ task_id := 0, prompt := "write a story", status := .completed,
                 result := some "story text", error := none, created_at := 1, updated_at := 2 }],
      nextId := 1 }
    { task_id := 0, prompt := "write a story", status := .completed,
      result := some "story text", error := none, created_at := 1, updated_at := 2 }
    rfl).2 "story text" rfl rfl

/-- C5: round-trip of create then poll.  If POST /tasks with prompt p
answers with task id t, an immediately following GET /tasks/t finds the
task and its record has task_id t, the submitted prompt p and status
"pending". -/
theorem create_then_poll (p : String) (t : Nat) (db : DB)
    (hlt : ∀ r ∈ db.rows, r.task_id < db.nextId) :
    getTaskStatus (createTask p t db).1.task_id (createTask p t db).2
      = some { task_id := (createTask p t db).1.task_id, status := TaskStatus.pending,
               prompt := p, created_at := t, updated_at := t } := by
  unfold getTaskStatus
  rw [show (createTask p t db).1.task_id = db.nextId from rfl]
  rw [findTask_createTask p t db db.nextId hlt]
  simp [newRow]

/-- Witness for C5: create on the empty table and poll the returned id. -/
theorem create_then_poll_witness :
    getTaskStatus (createTask "tell me a short story about AI" 5 { rows := [], nextId := 0 }).1.task_id
        (createTask "tell me a short story about AI" 5 { rows := [], nextId := 0 }).2
      = some { task_id := 0, status := TaskStatus.pending,
               prompt := "tell me a short story about AI", created_at := 5, updated_at := 5 } := by
  have h := create_then_poll "tell me a short story about AI" 5 { rows := [], nextId := 0 }
    (by intro r hr; simp at hr)
  simpa using h

/-- C6: the store is a single table keyed by task id.  In every reachable
state of the API process (so after any sequence of creates, background
updates and polls) the row ids are pairwise distinct — at most one row per
task id — and looking a row's id up returns exactly that row with all its
fields. -/
theorem table_keyed_by_id (s : Sys) (h : Reachable s) :
    (s.db.rows.map TaskRow.task_id).Nodup ∧
    ∀ r ∈ s.db.rows, findTask r.task_id s.db = some r := by
  obtain ⟨h1, h2, h3, h4, h5⟩ := reachable_sysInv s h
  refine ⟨h2, ?_⟩
  intro r hr
  unfold findTask
  exact find?_self_of_nodup s.db.rows r h2 hr

/-- Witness for C6: the state after one create from the empty state. -/
theorem table_keyed_by_id_witness :
    ((step Sys.start (Ev.create "p1" (Except.ok "r1"))).db.rows.map TaskRow.task_id).Nodup ∧
    ∀ r ∈ (step Sys.start (Ev.create "p1" (Except.ok "r1"))).db.rows,
      findTask r.task_id (step Sys.start (Ev.create "p1" (Except.ok "r1"))).db = some r :=
  table_keyed_by_id (step Sys.start (Ev.create "p1" (Except.ok "r1")))
    (Reachable.step Sys.start (Ev.create "p1" (Except.ok "r1")) Reachable.start)

theorem foldl_append_acc (ms : List AgentMessage) :
    ∀ acc : List AgentMessage, ms.foldl (fun a m => a ++ [m]) acc = acc ++ ms := by
  induction ms with
  | nil =>
    intro acc
    simp
  | cons m ms ih =>
    intro acc
    simp only [List.foldl]
    rw [ih]
    simp

theorem relayMessages_eq (ms : List AgentMessage) : relayMessages ms = ms := by
  unfold relayMessages
  rw [foldl_append_acc ms []]
  simp

/-- C7: pass-through.  For every submitted task text the system hands
exactly that text to the library's run_stream and relays the streamed
messages without altering their content; the notebook's write_code sample
is this same call at its fixed task text. -/
theorem run_stream_passthrough (lib : String → List AgentMessage) (p : String) :
    (runMagenticTask lib p).taskArg = p ∧
    (runMagenticTask lib p).displayed = lib p ∧
    write_code lib = runMagenticTask lib notebookTask := by
  refine ⟨rfl, ?_, rfl⟩
  show relayMessages (lib p) = lib p
  exact relayMessages_eq (lib p)

/-- C8: polling is read-only.  GET /tasks/{task_id} (and the result poll)
leaves the whole state — in particular every row of the task table —
unchanged; only the create and background-write events touch the table. -/
theorem poll_is_read_only (s : Sys) (id : Nat) :
    step s (Ev.poll id) = s ∧
    (step s (Ev.poll id)).db.rows = s.db.rows ∧
    step s (Ev.pollResult id) = s := by
  exact ⟨rfl, rfl, rfl⟩

/-- C9: with STORE_RUN_RESULT=true every image of the run is written to
Azure Blob Storage (the blob contents are exactly the image bytes) and
the Cosmos DB document stores the run metadata, the text results and only
the URLs referencing those blobs — the document has no image-bytes field
at all. -/
theorem store_run_result_urls (accountUrl container runId task : String)
    (texts : List String) (imgs : List RunImage) :
    ((store_run_result true accountUrl container runId task texts imgs).1.map BlobWrite.content
       = imgs.map RunImage.bytes) ∧
    ((store_run_result true accountUrl container runId task texts imgs).1.map BlobWrite.url
       = imgs.map (blobUrl accountUrl container)) ∧
    ((store_run_result true accountUrl container runId task texts imgs).2
       = some { id := runId, task := task, textResults := texts,
                imageUrls := (store_run_result true accountUrl container runId task texts imgs).1.map BlobWrite.url }) := by
  refine ⟨?_, ?_, ?_⟩ <;> simp [store_run_result, List.map_map, Function.comp]

/-- C10: secret-wiring consistency of the manifests.  Every one of the four
Key Vault objects of the SecretProviderClass is mapped into the Kubernetes
secret apps-akv-secret under its own name, and every secretKeyRef of the
Deployment's container env names apps-akv-secret with a key that mapping
provides, so no env var references a missing secret key. -/
theorem secret_wiring_consistent :
    (∀ o ∈ akvObjects, ∃ m ∈ appsAkvSecretData, m.objectName = o ∧ m.key = o) ∧
    (∀ ref ∈ deploymentSecretEnv,
       ref.secretName = akvSecretName ∧ ∃ m ∈ appsAkvSecretData, m.key = ref.key) := by
  decide
